import Mathlib

/-
Verification of the playlist persistence engine of the `tori` terminal music
player: a shallow embedding, in Lean 4, of the M3U song (de)serialization code
(`src/m3u/mod.rs`) and of the playlist-file management operations
(`tori/src/m3u/playlist_management.rs`), together with proofs and refutations
of the behavioural claims made by the natural-language specification.

Modelling conventions:
* Rust `String`/`&str` values are Lean `String`s; the byte-level contents of a
  playlist file are modelled as `List Char` (the files are UTF-8 text and
  every operation in scope manipulates whole characters).
* Rust `std::time::Duration` values produced and consumed by this code are
  always whole seconds, and are modelled as `Nat` (the `u64` of `as_secs`).
* Process aborts in the source (Rust `panic`/`unwrap`) are modelled as the
  `Except.error` branch of a dedicated error type so that they stay visible.
* File-system effects are made explicit: an operation that reads and rewrites
  one playlist file becomes a function from the file's old content to its new
  content, and path-level operations take an explicit map from paths to file
  contents.
All definitions are structurally recursive so that the kernel can evaluate
them on concrete inputs.
-/

namespace Tori

/-! ## Decimal rendering and parsing of natural numbers

`natToChars` models Rust's decimal formatting of a `u64`
(`format!("...{}...", duration)` in `Song::serialize`), written with explicit
fuel so that it is structurally recursive. -/

/-- The decimal digit character for `n < 10`. -/
def digitChar (n : Nat) : Char := Char.ofNat (48 + n)

/-- Fueled decimal rendering; `fuel` bounds the number of digits produced. -/
def natToStringAux : Nat → Nat → List Char
  | 0, _ => []
  | fuel + 1, n =>
    if n < 10 then [digitChar n]
    else natToStringAux fuel (n / 10) ++ [digitChar (n % 10)]

/-- Decimal rendering of a natural number, most significant digit first. -/
def natToChars (n : Nat) : List Char := natToStringAux (n + 1) n

/-- The numeric value of a decimal digit character, if it is one. -/
def digit? (c : Char) : Option Nat :=
  if '0' ≤ c ∧ c ≤ '9' then some (c.toNat - '0'.toNat) else none

/-- Left-to-right accumulation of decimal digits; fails on a non-digit. -/
def parseNatAux : List Char → Nat → Option Nat
  | [], acc => some acc
  | c :: rest, acc =>
    match digit? c with
    | some d => parseNatAux rest (acc * 10 + d)
    | none => none

/-- Parse a non-empty all-digit string as a natural number. -/
def parseNat? (l : List Char) : Option Nat :=
  if l.isEmpty then none else parseNatAux l 0

/-! ## The Song value and its serialization (`src/m3u/mod.rs`) -/

/-- `Song` from `src/m3u/mod.rs`: title, whole-second duration, path. -/
structure Song where
  title : String
  duration : Nat
  path : String
deriving DecidableEq

/-- The characters of the literal `"#EXTINF:"`. -/
def extinfChars : List Char := ['#', 'E', 'X', 'T', 'I', 'N', 'F', ':']

/-- The characters of the literal `"#EXTM3U"`. -/
def extm3uChars : List Char := ['#', 'E', 'X', 'T', 'M', '3', 'U']

/-- The characters of the header line `"#EXTM3U\n"`. -/
def headerLineChars : List Char := extm3uChars ++ ['\n']

/-- `Song::serialize`: `format!("#EXTINF:{},{}\n{}\n", duration, title, path)`,
as a character list. -/
def serializeChars (s : Song) : List Char :=
  extinfChars ++ natToChars s.duration ++ ',' :: s.title.data ++ '\n' :: s.path.data ++ ['\n']

/-- `Song::serialize` returning a `String`, as in the source. -/
def serialize (s : Song) : String := ⟨serializeChars s⟩

/-! ## Line splitting and trimming, as used by `Song::parse_m3u`

`parse_m3u` iterates `BufReader::lines()` (lines split at `'\n'`, with a
trailing `"\r\n"` stripped to nothing and the final unterminated line kept
as-is) and calls `str::trim` on every line. -/

/-- Rust `char::is_whitespace`: the Unicode `White_Space` property. -/
def isRustWhitespace (c : Char) : Bool :=
  (0x9 ≤ c.val && c.val ≤ 0xD) || c.val == 0x20 || c.val == 0x85 || c.val == 0xA0 ||
    c.val == 0x1680 || (0x2000 ≤ c.val && c.val ≤ 0x200A) || c.val == 0x2028 ||
    c.val == 0x2029 || c.val == 0x202F || c.val == 0x205F || c.val == 0x3000

/-- `str::trim`: drop Unicode whitespace from both ends. -/
def rustTrim (l : List Char) : List Char :=
  ((l.dropWhile isRustWhitespace).reverse.dropWhile isRustWhitespace).reverse

/-- Strip one trailing `'\r'` (the CR of a CRLF line ending). -/
def stripCR (l : List Char) : List Char :=
  if l.getLast? = some '\r' then l.dropLast else l

/-- Worker for `linesOf`: `acc` holds the current line, reversed. -/
def linesAux : List Char → List Char → List (List Char)
  | [], acc => [acc.reverse]
  | c :: rest, acc =>
    if c = '\n' then
      match rest with
      | [] => [stripCR acc.reverse]
      | _ :: _ => stripCR acc.reverse :: linesAux rest []
    else linesAux rest (c :: acc)

/-- `BufReader::lines()` over an in-memory text: split at `'\n'`, strip a
CR before each split newline, keep a final unterminated line, and produce
nothing for empty input. -/
def linesOf (s : List Char) : List (List Char) :=
  if s.isEmpty then [] else linesAux s []

/-! ## `Song::parse_m3u` and `Song::parse_m3u_extline`

The source panics (process abort) on an extline it does not recognize, on a
duration field that does not parse as an `f64`, and on a missing comma after
the duration; those aborts are modelled as `Except.error` values so that they
remain observable. -/

/-- The panics that `Song::parse_m3u`/`parse_m3u_extline` can hit. -/
inductive ParseAbort where
  | badDuration (field : List Char)
  | missingTitle (line : List Char)
  | unknownExtline (line : List Char)
deriving DecidableEq

/-- The `Ext` enum of `src/m3u/mod.rs`. -/
inductive Ext where
  | extm3u
  | extinf (duration : Nat) (title : List Char)
deriving DecidableEq

/-- Round a natural number to the value of the nearest `f64`
(round to nearest, ties to even, 53-bit significand); exact below `2 ^ 53`. -/
def f64RoundToInt (n : Nat) : Nat :=
  if n ≤ 2 ^ 53 then n
  else
    let e := Nat.log2 n - 52
    let u := n / 2 ^ e
    let r := n % 2 ^ e
    let half := 2 ^ (e - 1)
    if half < r || (r == half && u % 2 == 1) then (u + 1) * 2 ^ e else u * 2 ^ e

/-- The duration-field conversion of `parse_m3u_extline`:
`field.parse::<f64>()` followed by `as u64`, on the decimal-integer grammar
(the only shape this codebase ever serializes; the full `f64` grammar also
accepts signs, fractions and exponents, which no claim exercises).  The
`as u64` cast saturates at `2 ^ 64 - 1`. -/
def parseF64asU64? (l : List Char) : Option Nat :=
  (parseNat? l).map (fun n => min (f64RoundToInt n) (2 ^ 64 - 1))

/-- `startsWith p l` is Rust `l.starts_with(p)` on character lists. -/
def startsWith : List Char → List Char → Bool
  | [], _ => true
  | _ :: _, [] => false
  | p :: ps, c :: cs => if p = c then startsWith ps cs else false

/-- `Song::parse_m3u_extline`, with panics as errors.  The line is already
known to start with `'#'`.  `splitn(2, ',')` yields the part before the first
comma and everything after it; the absence of a comma makes the second
`parts.next().unwrap()` panic. -/
def parse_m3u_extline (line : List Char) : Except ParseAbort Ext :=
  if startsWith extm3uChars line then .ok .extm3u
  else if startsWith extinfChars line then
    let rest := line.drop 8
    let durField := rest.takeWhile (fun c => c ≠ ',')
    match parseF64asU64? durField with
    | none => .error (.badDuration durField)
    | some d =>
      match rest.dropWhile (fun c => c ≠ ',') with
      | [] => .error (.missingTitle line)
      | _ :: title => .ok (.extinf d title)
  else .error (.unknownExtline line)

/-- The loop body of `Song::parse_m3u`: fold over the lines, carrying the
pending `title`/`duration` (reset to their defaults by `mem::take` whenever a
path line emits a song) and the accumulated songs in reverse order. -/
def parseM3uGo : List (List Char) → List Char → Nat → List Song → Except ParseAbort (List Song)
  | [], _, _, acc => .ok acc.reverse
  | line :: rest, title, dur, acc =>
    let t := rustTrim line
    if t.isEmpty then parseM3uGo rest title dur acc
    else if t.head? = some '#' then
      match parse_m3u_extline t with
      | .error e => .error e
      | .ok .extm3u => parseM3uGo rest title dur acc
      | .ok (.extinf d ti) => parseM3uGo rest ti d acc
    else parseM3uGo rest [] 0 (⟨⟨title⟩, dur, ⟨t⟩⟩ :: acc)

/-- `Song::parse_m3u` over an in-memory input. -/
def parse_m3u (input : String) : Except ParseAbort (List Song) :=
  parseM3uGo (linesOf input.data) [] 0 []

instance instDecEqExcept {ε α : Type} [DecidableEq ε] [DecidableEq α] :
    DecidableEq (Except ε α) := fun a b =>
  match a, b with
  | .ok x, .ok y =>
    if h : x = y then .isTrue (by rw [h]) else .isFalse (by intro hc; cases hc; exact h rfl)
  | .error x, .error y =>
    if h : x = y then .isTrue (by rw [h]) else .isFalse (by intro hc; cases hc; exact h rfl)
  | .ok _, .error _ => .isFalse (by intro hc; cases hc)
  | .error _, .ok _ => .isFalse (by intro hc; cases hc)

/-! ## The cursor-tracking playlist parser

`tori/src/m3u/playlist_management.rs` drives an `m3u::Parser` with
`from_string`, `next_header`, `next_song` and `cursor`.  The parser's own
source file is not among the provided sources, so it is modelled from the
specification.  The parser state is represented by the not-yet-consumed
suffix of the text; the cursor of the original is recovered as
`content.length - remaining.length` (spec: `cursor()` "equals the text
length of everything consumed so far"). -/

/-- The parser/store errors the modelled parser can return. -/
inductive StoreErr where
  | malformedPlaylist
deriving DecidableEq

/-- Split off the first line: the characters before the first `'\n'`, and
`some` remainder after that `'\n'`, or `none` when the text has no newline. -/
def splitFirstLine (s : List Char) : List Char × Option (List Char) :=
  let line := s.takeWhile (fun c => c ≠ '\n')
  match s.dropWhile (fun c => c ≠ '\n') with
  | [] => (line, none)
  | _ :: rest => (line, some rest)

/-- Modelled from the spec: `Parser::next_header` (`m3u/parser.rs`, not among
the provided sources) "consumes the format header if present at the current
position; idempotent no-op if absent; advances cursor past it".  The header is
a line starting with `#EXTM3U`; consuming it swallows the whole line including
its newline. -/
def nextHeader (s : List Char) : List Char :=
  if startsWith extm3uChars (s.takeWhile (fun c => c ≠ '\n')) then
    match splitFirstLine s with
    | (_, some rest) => rest
    | (_, none) => []
  else s

/-- Modelled from the spec: `Parser::next_song` (`m3u/parser.rs`, not among
the provided sources) "attempts to consume one (metadata-line, path-line) pair
starting at the current cursor", returning the parsed Song and the state past
both lines, "no song" (not an error) at end of input, and `MalformedPlaylist`
if the metadata line is not a well-formed `#EXTINF:<duration>,<title>` line,
if its duration field does not parse as a non-negative number, or if the
following path line is missing. -/
def nextSong (s : List Char) : Except StoreErr (Option Song × List Char) :=
  if s.isEmpty then .ok (none, [])
  else
    let (line, restOpt) := splitFirstLine s
    if startsWith extinfChars line then
      let fields := line.drop 8
      match parseNat? (fields.takeWhile (fun c => c ≠ ',')) with
      | none => .error .malformedPlaylist
      | some d =>
        match fields.dropWhile (fun c => c ≠ ',') with
        | [] => .error .malformedPlaylist
        | _ :: title =>
          match restOpt with
          | none => .error .malformedPlaylist
          | some rest =>
            if rest.isEmpty then .error .malformedPlaylist
            else
              let (path, rest2) := splitFirstLine rest
              .ok (some ⟨⟨title⟩, d, ⟨path⟩⟩, rest2.getD [])
    else .error .malformedPlaylist

/-- The `for _ in 0..index { parser.next_song()?; }` skip loop shared by
`delete_song`, `rename_song` and `swap_song`. -/
def skipSongs : Nat → List Char → Except StoreErr (List Char)
  | 0, s => .ok s
  | n + 1, s => do
    let (_, s') ← nextSong s
    skipSongs n s'

/-! ## The store's splicing mutations (`tori/src/m3u/playlist_management.rs`)

Each operation reads the whole playlist file, parses up to the target,
records cursors, and rewrites the file as `content[..start] ++ replacement ++
content[end..]`.  The embedding maps the file's old content to the operation's
result: the new content (all three operations return `Ok` whenever parsing
succeeded, whether or not anything was spliced). -/

/-- `delete_song` from `tori/src/m3u/playlist_management.rs`: skip the header
and `index` songs, record `start`, consume one more song, record `end`, write
`content[..start] ++ content[end..]`. -/
def delete_song (content : List Char) (index : Nat) : Except StoreErr (List Char) := do
  let r1 := nextHeader content
  let r2 ← skipSongs index r1
  let startPos := content.length - r2.length
  let (_, r3) ← nextSong r2
  let endPos := content.length - r3.length
  pure (content.take startPos ++ content.drop endPos)

/-- `rename_song` from `tori/src/m3u/playlist_management.rs`: like
`delete_song`, but splice the re-serialized song (with the new title) back in
place of the old record; when the target song is absent, write nothing. -/
def rename_song (content : List Char) (index : Nat) (newName : String) :
    Except StoreErr (List Char) := do
  let r1 := nextHeader content
  let r2 ← skipSongs index r1
  let startPos := content.length - r2.length
  let (song, r3) ← nextSong r2
  let endPos := content.length - r3.length
  match song with
  | some s =>
    pure (content.take startPos ++ serializeChars ⟨newName, s.duration, s.path⟩ ++
      content.drop endPos)
  | none => pure content

/-- `swap_song` from `tori/src/m3u/playlist_management.rs`: parse the two
songs at `index` and `index + 1`, and write their serializations back in
reversed order inside the enclosing span; when either is absent, write
nothing. -/
def swap_song (content : List Char) (index : Nat) : Except StoreErr (List Char) := do
  let r1 := nextHeader content
  let r2 ← skipSongs index r1
  let startPos := content.length - r2.length
  let (song1, r3) ← nextSong r2
  let (song2, r4) ← nextSong r3
  let endPos := content.length - r4.length
  match song1, song2 with
  | some s1, some s2 =>
    pure (content.take startPos ++ serializeChars s2 ++ serializeChars s1 ++
      content.drop endPos)
  | _, _ => pure content

/-- Modelled from the spec: `list_songs` ("`list_songs(playlist) -> ordered
sequence of Song`"; the corresponding `Parser::all_songs` is not among the
provided sources): consume the header, then collect songs until `next_song`
returns "no song".  `fuel` bounds the loop; `content.length + 1` always
suffices because every consumed song record is non-empty. -/
def readSongs : Nat → List Char → Except StoreErr (List Song)
  | 0, s => if s.isEmpty then .ok [] else .error .malformedPlaylist
  | fuel + 1, s => do
    let (song?, s') ← nextSong s
    match song? with
    | none => .ok []
    | some song => do
      let rest ← readSongs fuel s'
      pure (song :: rest)

/-- Full-file parse: header, then all songs, in file order. -/
def list_songs (content : List Char) : Except StoreErr (List Song) :=
  readSongs (content.length + 1) (nextHeader content)

/-! ## Appending a song (`Song::add_to_playlist`, `src/m3u/mod.rs`)

The file effect of `add_to_playlist`, as a function of the file's old
content: if the first seven bytes are not `#EXTM3U` (also when the file is
shorter than that), the content is rewritten with `"#EXTM3U\n"` prepended;
then a final newline is appended unless the content already ends in one; then
the serialized song is appended. -/

def add_to_playlist (song : Song) (content : List Char) : List Char :=
  let hasHeader := startsWith extm3uChars content
  let c1 := if hasHeader then content else headerLineChars ++ content
  let c2 := if c1.getLast? = some '\n' then c1 else c1 ++ ['\n']
  c2 ++ serializeChars song

/-! ## Playlist file paths

`Config::playlist_path` (`src/config.rs`) joins the externally supplied
`playlists_dir` with `<name>.m3u8`; `Song::add_to_playlist`
(`src/m3u/mod.rs`, lines 109-115) instead hardcodes
`PathBuf::from("playlists").join(<name>.m3u)`.  `PathBuf::join` with the
relative second components used here is modelled as `/`-concatenation. -/

/-- `Config::playlist_path`: `<playlists_dir>/<name>.m3u8`. -/
def playlist_path (playlists_dir name : String) : String :=
  playlists_dir ++ "/" ++ name ++ ".m3u8"

/-- The path `Song::add_to_playlist` opens: `playlists/<name>.m3u`. -/
def add_to_playlist_path (name : String) : String :=
  "playlists" ++ "/" ++ name ++ ".m3u"

/-! ## `rename_playlist` (`tori/src/m3u/playlist_management.rs`)

The filesystem is modelled as a map from paths to file contents.  The
operation returns its `Result` together with the filesystem after the call
(unchanged on every failure). -/

/-- `RenamePlaylistError` from `tori/src/m3u/playlist_management.rs`; the
wrapped `io::Error` payload is dropped. -/
inductive RenamePlaylistError where
  | playlistAlreadyExists
  | emptyPlaylistName
  | invalidChar (c : Char)
  | ioError
deriving DecidableEq

/-- `rename_playlist`: validate the new name (empty, `'/'`, `'\\'`), fail if
anything exists at the new path, then perform the filesystem rename. -/
def rename_playlist (fs : String → Option String) (playlists_dir old new : String) :
    Except RenamePlaylistError Unit × (String → Option String) :=
  if new = "" then (.error .emptyPlaylistName, fs)
  else if new.data.contains '/' then (.error (.invalidChar '/'), fs)
  else if new.data.contains '\\' then (.error (.invalidChar '\\'), fs)
  else
    let oldPath := playlist_path playlists_dir old
    let newPath := playlist_path playlists_dir new
    if (fs newPath).isSome then (.error .playlistAlreadyExists, fs)
    else
      match fs oldPath with
      | none => (.error .ioError, fs)
      | some content =>
        (.ok (), fun p => if p = newPath then some content
                          else if p = oldPath then none else fs p)

/-! ## Source plausibility (`add_song` / `surely_invalid_path`)

`surely_invalid_path` queries the live filesystem through `Path::is_dir` and
`Path::exists`; those two queries are abstracted as boolean-valued functions
supplied to the embedding. -/

/-- The filesystem queries `surely_invalid_path` makes. -/
structure FsView where
  isDir : String → Bool
  pathExists : String → Bool

/-- `surely_invalid_path` from `tori/src/m3u/playlist_management.rs`. -/
def surely_invalid_path (fs : FsView) (path : String) : Bool :=
  !fs.isDir path && !fs.pathExists path && !startsWith "http://".data path.data &&
    !startsWith "https://".data path.data && !startsWith "ytdl://".data path.data

/-- The immediate outcome of `add_song`: either the early rejection branch
(notify an error and return, touching nothing) or proceeding to recursive
resolution. -/
inductive AddSongOutcome where
  | rejected
  | proceeded
deriving DecidableEq

/-- The source-validation phase of `add_song`
(`tori/src/m3u/playlist_management.rs`): reject exactly when
`surely_invalid_path` holds, otherwise proceed to `add_song_recursively`. -/
def add_song (fs : FsView) (source : String) : AddSongOutcome :=
  if surely_invalid_path fs source then .rejected else .proceeded

/-! ## Well-formedness predicates and canonical playlist files -/

/-- A song whose serialized record the cursor parser reads back exactly:
neither the title nor the path may contain a newline. -/
def goodSong (s : Song) : Bool :=
  s.title.data.all (fun c => c ≠ '\n') && s.path.data.all (fun c => c ≠ '\n')

/-- All songs of a list are `goodSong`. -/
def goodSongs (l : List Song) : Bool := l.all goodSong

/-- The concatenated two-line records of a list of songs. -/
def recordsChars : List Song → List Char
  | [] => []
  | s :: rest => serializeChars s ++ recordsChars rest

/-- A canonical playlist file: the header line followed by the records. -/
def fileChars (songs : List Song) : List Char := headerLineChars ++ recordsChars songs

/-- A song that `Song::parse_m3u` reads back exactly from its serialization:
beyond `goodSong`, `str::trim` must not alter the metadata line or the path
line, the path must be non-empty, and the path must not look like an extline. -/
def goodSrcSong (s : Song) : Bool :=
  s.title.data.all (fun c => c ≠ '\n') &&
    s.title.data.getLast?.all (fun c => !isRustWhitespace c) &&
    !s.path.data.isEmpty &&
    s.path.data.all (fun c => c ≠ '\n') &&
    s.path.data.head?.all (fun c => !isRustWhitespace c && c ≠ '#') &&
    s.path.data.getLast?.all (fun c => !isRustWhitespace c)

/-! ## Lemmas: decimal rendering and parsing -/

theorem natToStringAux_fuel :
    ∀ f₁ f₂ n, n < f₁ → n < f₂ → natToStringAux f₁ n = natToStringAux f₂ n := by
  intro f₁
  induction f₁ with
  | zero => intro f₂ n h; omega
  | succ f ih =>
    intro f₂ n h₁ h₂
    cases f₂ with
    | zero => omega
    | succ g =>
      by_cases hn : n < 10
      · simp [natToStringAux, hn]
      · have hd : n / 10 < n := Nat.div_lt_self (by omega) (by omega)
        simp only [natToStringAux, if_neg hn]
        rw [ih g (n / 10) (by omega) (by omega)]

theorem natToChars_lt10 {n : Nat} (h : n < 10) : natToChars n = [digitChar n] := by
  simp [natToChars, natToStringAux, h]

theorem natToStringAux_succ (fuel n : Nat) :
    natToStringAux (fuel + 1) n =
      if n < 10 then [digitChar n]
      else natToStringAux fuel (n / 10) ++ [digitChar (n % 10)] := rfl

theorem natToChars_ge10 {n : Nat} (h : 10 ≤ n) :
    natToChars n = natToChars (n / 10) ++ [digitChar (n % 10)] := by
  have hd : n / 10 < n := Nat.div_lt_self (by omega) (by omega)
  rw [natToChars, natToStringAux_succ, if_neg (by omega : ¬ n < 10)]
  rw [natToStringAux_fuel n (n / 10 + 1) (n / 10) (by omega) (by omega)]
  rfl

theorem natToChars_ne_nil (n : Nat) : natToChars n ≠ [] := by
  by_cases h : n < 10
  · rw [natToChars_lt10 h]; simp
  · rw [natToChars_ge10 (by omega)]; simp

theorem natToChars_mem {n : Nat} {c : Char} (h : c ∈ natToChars n) :
    ∃ k, k < 10 ∧ c = digitChar k := by
  induction n using Nat.strong_induction_on with
  | _ n ih =>
    by_cases hn : n < 10
    · rw [natToChars_lt10 hn] at h
      exact ⟨n, hn, by simpa using h⟩
    · rw [natToChars_ge10 (by omega)] at h
      rcases List.mem_append.mp h with h' | h'
      · exact ih (n / 10) (Nat.div_lt_self (by omega) (by omega)) h'
      · exact ⟨n % 10, by omega, by simpa using h'⟩

theorem digitChar_is_digit {k : Nat} (h : k < 10) :
    '0' ≤ digitChar k ∧ digitChar k ≤ '9' := by
  interval_cases k <;> decide

theorem digit?_digitChar {k : Nat} (h : k < 10) : digit? (digitChar k) = some k := by
  interval_cases k <;> decide

theorem parseNatAux_append (l₁ l₂ : List Char) (acc : Nat) :
    parseNatAux (l₁ ++ l₂) acc =
      match parseNatAux l₁ acc with
      | some v => parseNatAux l₂ v
      | none => none := by
  induction l₁ generalizing acc with
  | nil => simp [parseNatAux]
  | cons c rest ih =>
    simp only [List.cons_append, parseNatAux]
    cases digit? c with
    | some d => exact ih (acc * 10 + d)
    | none => rfl

theorem parseNatAux_natToChars (n acc : Nat) :
    parseNatAux (natToChars n) acc = some (acc * 10 ^ (natToChars n).length + n) := by
  induction n using Nat.strong_induction_on generalizing acc with
  | _ n ih =>
    by_cases hn : n < 10
    · rw [natToChars_lt10 hn]
      simp [parseNatAux, digit?_digitChar hn]
    · rw [natToChars_ge10 (by omega)]
      rw [parseNatAux_append]
      rw [ih (n / 10) (Nat.div_lt_self (by omega) (by omega)) acc]
      simp only [parseNatAux, digit?_digitChar (Nat.mod_lt n (by omega))]
      have : (natToChars (n / 10)).length + 1 = (natToChars (n / 10) ++ [digitChar (n % 10)]).length := by
        simp
      simp only [List.length_append, List.length_cons, List.length_nil]
      ring_nf
      congr 1
      have h10 : acc * 10 ^ ((natToChars (n / 10)).length + 1) =
          (acc * 10 ^ (natToChars (n / 10)).length) * 10 := by ring
      omega

theorem parseNat?_natToChars (n : Nat) : parseNat? (natToChars n) = some n := by
  have hne := natToChars_ne_nil n
  simp only [parseNat?, List.isEmpty_iff, if_neg hne]
  have := parseNatAux_natToChars n 0
  simpa using this

/-! ## Helper lemmas -/

theorem except_ok_bind {ε α β : Type} (a : α) (f : α → Except ε β) :
    (Except.ok a >>= f) = f a := rfl

theorem takeWhile_all {p : Char → Bool} :
    ∀ {l : List Char}, (∀ c ∈ l, p c = true) → l.takeWhile p = l ∧ l.dropWhile p = []
  | [], _ => ⟨rfl, rfl⟩
  | c :: rest, h => by
    have hc : p c = true := h c (by simp)
    have ih := takeWhile_all (p := p) (l := rest) (fun x hx => h x (by simp [hx]))
    simp [List.takeWhile_cons, List.dropWhile_cons, hc, ih.1, ih.2]

theorem takeWhile_append_stop {p : Char → Bool} {l : List Char} (stop : Char)
    (rest : List Char) (hl : ∀ c ∈ l, p c = true) (hstop : p stop = false) :
    (l ++ stop :: rest).takeWhile p = l ∧ (l ++ stop :: rest).dropWhile p = stop :: rest := by
  induction l with
  | nil => simp [List.takeWhile_cons, List.dropWhile_cons, hstop]
  | cons c t ih =>
    have hc : p c = true := hl c (by simp)
    have := ih (fun x hx => hl x (by simp [hx]))
    simp [List.takeWhile_cons, List.dropWhile_cons, hc, this.1, this.2]

theorem startsWith_self_append : ∀ (p rest : List Char), startsWith p (p ++ rest) = true
  | [], _ => rfl
  | c :: ps, rest => by simp [startsWith, startsWith_self_append ps rest]

theorem stripCR_of_getLast?_ne (l : List Char) (h : ∀ c, l.getLast? = some c → c ≠ '\r') :
    stripCR l = l := by
  unfold stripCR
  rw [if_neg]
  intro hc
  exact h '\r' hc rfl

theorem splitFirstLine_mid {l : List Char} (rest : List Char)
    (h : ∀ c ∈ l, c ≠ '\n') : splitFirstLine (l ++ '\n' :: rest) = (l, some rest) := by
  have h' : ∀ c ∈ l, (decide (c ≠ '\n')) = true := fun c hc => by
    simp [h c hc]
  have ht := takeWhile_append_stop (p := fun c => decide (c ≠ '\n')) '\n' rest h' (by simp)
  simp only [splitFirstLine]
  rw [ht.1, ht.2]

theorem splitFirstLine_nolf {l : List Char} (h : ∀ c ∈ l, c ≠ '\n') :
    splitFirstLine l = (l, none) := by
  have h' : ∀ c ∈ l, (decide (c ≠ '\n')) = true := fun c hc => by
    simp [h c hc]
  have ht := takeWhile_all (p := fun c => decide (c ≠ '\n')) h'
  simp only [splitFirstLine]
  rw [ht.1, ht.2]

theorem linesAux_newline {l : List Char} (rest acc : List Char)
    (h : ∀ c ∈ l, c ≠ '\n') :
    linesAux (l ++ '\n' :: rest) acc =
      stripCR (acc.reverse ++ l) :: (if rest.isEmpty then [] else linesAux rest []) := by
  induction l generalizing acc with
  | nil =>
    cases rest with
    | nil => simp [linesAux]
    | cons x xs => simp [linesAux]
  | cons x t ih =>
    have hx : x ≠ '\n' := h x (by simp)
    have hrec := ih (x :: acc) (fun c hc => h c (by simp [hc]))
    rw [List.cons_append]
    rw [show linesAux (x :: (t ++ '\n' :: rest)) acc = linesAux (t ++ '\n' :: rest) (x :: acc) by
      simp [linesAux, hx]]
    rw [hrec, List.reverse_cons, List.append_assoc]
    rfl

/-! ## Tameness of decimal digit renderings -/

theorem digitChar_tame {k : Nat} (h : k < 10) :
    digitChar k ≠ '\n' ∧ digitChar k ≠ ',' ∧ digitChar k ≠ '\r' ∧
      isRustWhitespace (digitChar k) = false ∧ digitChar k ≠ '#' := by
  interval_cases k <;> decide

theorem natToChars_tame {n : Nat} {c : Char} (h : c ∈ natToChars n) :
    c ≠ '\n' ∧ c ≠ ',' ∧ c ≠ '\r' ∧ isRustWhitespace c = false := by
  obtain ⟨k, hk, rfl⟩ := natToChars_mem h
  obtain ⟨h1, h2, h3, h4, _⟩ := digitChar_tame hk
  exact ⟨h1, h2, h3, h4⟩

/-! ## Record-level behaviour of the modelled cursor parser -/

theorem serializeChars_decomp (s : Song) (tail : List Char) :
    serializeChars s ++ tail =
      (extinfChars ++ (natToChars s.duration ++ ',' :: s.title.data)) ++
        '\n' :: (s.path.data ++ '\n' :: tail) := by
  simp [serializeChars, List.append_assoc]

theorem metaLine_no_newline {s : Song} (hT : ∀ c ∈ s.title.data, c ≠ '\n') :
    ∀ c ∈ extinfChars ++ (natToChars s.duration ++ ',' :: s.title.data), c ≠ '\n' := by
  intro c hc
  rcases List.mem_append.mp hc with h | h
  · fin_cases h <;> decide
  · rcases List.mem_append.mp h with h' | h'
    · exact (natToChars_tame h').1
    · rcases List.mem_cons.mp h' with rfl | h''
      · decide
      · exact hT c h''

theorem nextSong_record {s : Song} (tail : List Char) (h : goodSong s = true) :
    nextSong (serializeChars s ++ tail) = .ok (some s, tail) := by
  have h' : (∀ c ∈ s.title.data, c ≠ '\n') ∧ ∀ c ∈ s.path.data, c ≠ '\n' := by
    simpa [goodSong, Bool.and_eq_true] using h
  obtain ⟨hT, hPn⟩ := h'
  have hdecomp := serializeChars_decomp s tail
  have hM : ∀ c ∈ extinfChars ++ (natToChars s.duration ++ ',' :: s.title.data), c ≠ '\n' :=
    metaLine_no_newline hT
  have h0 : ((extinfChars ++ (natToChars s.duration ++ ',' :: s.title.data)) ++
      '\n' :: (s.path.data ++ '\n' :: tail)).isEmpty = false := rfl
  have hsplit := splitFirstLine_mid (l := extinfChars ++ (natToChars s.duration ++ ',' :: s.title.data))
    (s.path.data ++ '\n' :: tail) hM
  have hsw := startsWith_self_append extinfChars (natToChars s.duration ++ ',' :: s.title.data)
  have hdrop : (extinfChars ++ (natToChars s.duration ++ ',' :: s.title.data)).drop 8 =
      natToChars s.duration ++ ',' :: s.title.data := by
    rw [show (8 : Nat) = extinfChars.length from rfl, List.drop_left]
  have htake := takeWhile_append_stop (p := fun c => decide (c ≠ ','))
    (l := natToChars s.duration) ',' s.title.data
    (fun c hc => by simp [(natToChars_tame hc).2.1]) (by simp)
  have hparse := parseNat?_natToChars s.duration
  have hr1 : (s.path.data ++ '\n' :: tail).isEmpty = false := by
    cases h : s.path.data <;> rfl
  have hsplit2 := splitFirstLine_mid (l := s.path.data) tail hPn
  rw [hdecomp]
  rw [nextSong]
  rw [h0]
  simp only [Bool.false_eq_true, if_false]
  rw [hsplit]
  simp only
  rw [hsw]
  simp only [if_true]
  rw [hdrop]
  rw [htake.1, htake.2, hparse]
  simp only
  rw [hr1]
  simp only [Bool.false_eq_true, if_false]
  rw [hsplit2]
  rfl

theorem nextSong_nil : nextSong [] = .ok (none, []) := rfl

theorem recordsChars_append (l₁ l₂ : List Song) :
    recordsChars (l₁ ++ l₂) = recordsChars l₁ ++ recordsChars l₂ := by
  induction l₁ with
  | nil => simp [recordsChars]
  | cons s t ih => simp [recordsChars, ih]

theorem goodSongs_cons {s : Song} {t : List Song} (h : goodSongs (s :: t) = true) :
    goodSong s = true ∧ goodSongs t = true := by
  simpa [goodSongs, List.all_cons, Bool.and_eq_true] using h

theorem goodSongs_append {l₁ l₂ : List Song} (h : goodSongs (l₁ ++ l₂) = true) :
    goodSongs l₁ = true ∧ goodSongs l₂ = true := by
  constructor <;>
    [exact List.all_eq_true.mpr fun x hx =>
      List.all_eq_true.mp h x (List.mem_append.mpr (Or.inl hx));
     exact List.all_eq_true.mpr fun x hx =>
      List.all_eq_true.mp h x (List.mem_append.mpr (Or.inr hx))]

theorem nextHeader_prepend (X : List Char) : nextHeader (headerLineChars ++ X) = X := by
  have hM : ∀ c ∈ extm3uChars, c ≠ '\n' := by intro c hc; fin_cases hc <;> decide
  have hassoc : headerLineChars ++ X = extm3uChars ++ '\n' :: X := by
    simp [headerLineChars]
  have ht := takeWhile_append_stop (p := fun c => decide (c ≠ '\n')) (l := extm3uChars) '\n' X
    (fun c hc => by simp [hM c hc]) (by simp)
  have hself : startsWith extm3uChars extm3uChars = true := by
    have := startsWith_self_append extm3uChars []
    simpa using this
  rw [hassoc, nextHeader]
  rw [ht.1, hself]
  simp only [if_true]
  rw [splitFirstLine_mid X hM]

theorem skipSongs_records (pre : List Song) (tail : List Char) (h : goodSongs pre = true) :
    skipSongs pre.length (recordsChars pre ++ tail) = .ok tail := by
  induction pre with
  | nil => simp [recordsChars, skipSongs]
  | cons s t ih =>
    obtain ⟨hs, ht⟩ := goodSongs_cons h
    show skipSongs (t.length + 1) (recordsChars (s :: t) ++ tail) = .ok tail
    rw [show recordsChars (s :: t) ++ tail = serializeChars s ++ (recordsChars t ++ tail) from by
      simp [recordsChars, List.append_assoc]]
    rw [skipSongs, nextSong_record _ hs, except_ok_bind]
    exact ih ht

theorem skipSongs_nil_any : ∀ k, skipSongs k [] = .ok []
  | 0 => rfl
  | k + 1 => by
    rw [skipSongs, nextSong_nil, except_ok_bind]
    exact skipSongs_nil_any k

theorem skipSongs_add (a b : Nat) (s : List Char) :
    skipSongs (a + b) s = skipSongs a s >>= skipSongs b := by
  induction a generalizing s with
  | zero =>
    rw [Nat.zero_add]
    rfl
  | succ a ih =>
    rw [Nat.succ_add, skipSongs, skipSongs]
    cases hns : nextSong s with
    | error e => rfl
    | ok p =>
      cases p with
      | mk x s' => simp only [except_ok_bind, ih]

theorem skipSongs_oob (songs : List Song) (i : Nat) (h : goodSongs songs = true)
    (hi : songs.length ≤ i) : skipSongs i (recordsChars songs) = .ok [] := by
  have hsplit : i = songs.length + (i - songs.length) := by omega
  rw [hsplit, skipSongs_add]
  rw [show recordsChars songs = recordsChars songs ++ [] from by simp]
  rw [skipSongs_records songs [] h, except_ok_bind]
  exact skipSongs_nil_any _

/-! ## Behaviour of `delete_song`, `swap_song` and `list_songs` on canonical files -/

theorem delete_song_mid (pre : List Song) (t : Song) (post : List Song)
    (h : goodSongs (pre ++ t :: post) = true) :
    delete_song (fileChars (pre ++ t :: post)) pre.length = .ok (fileChars (pre ++ post)) := by
  obtain ⟨hpre, hrest⟩ := goodSongs_append h
  obtain ⟨ht, hpost⟩ := goodSongs_cons hrest
  unfold delete_song
  dsimp only
  rw [show fileChars (pre ++ t :: post) =
      headerLineChars ++ (recordsChars pre ++ (serializeChars t ++ recordsChars post)) from by
    simp [fileChars, recordsChars_append, recordsChars, List.append_assoc]]
  rw [nextHeader_prepend]
  rw [show recordsChars pre ++ (serializeChars t ++ recordsChars post) =
      recordsChars pre ++ (serializeChars t ++ recordsChars post) from rfl]
  rw [skipSongs_records pre _ hpre, except_ok_bind]
  rw [nextSong_record _ ht, except_ok_bind]
  have hstart : (headerLineChars ++ (recordsChars pre ++ (serializeChars t ++ recordsChars post))).length -
      (serializeChars t ++ recordsChars post).length =
      (headerLineChars ++ recordsChars pre).length := by
    simp [List.length_append]
    omega
  have hend : (headerLineChars ++ (recordsChars pre ++ (serializeChars t ++ recordsChars post))).length -
      (recordsChars post).length =
      ((headerLineChars ++ recordsChars pre) ++ serializeChars t).length := by
    simp [List.length_append]
    omega
  rw [hstart, hend]
  rw [show headerLineChars ++ (recordsChars pre ++ (serializeChars t ++ recordsChars post)) =
      (headerLineChars ++ recordsChars pre) ++ (serializeChars t ++ recordsChars post) from by
    simp [List.append_assoc]]
  rw [List.take_left]
  rw [show (headerLineChars ++ recordsChars pre) ++ (serializeChars t ++ recordsChars post) =
      ((headerLineChars ++ recordsChars pre) ++ serializeChars t) ++ recordsChars post from by
    simp [List.append_assoc]]
  rw [List.drop_left]
  simp only [fileChars, recordsChars_append, List.append_assoc]
  rfl

theorem delete_song_oob (songs : List Song) (i : Nat) (h : goodSongs songs = true)
    (hi : songs.length ≤ i) :
    delete_song (fileChars songs) i = .ok (fileChars songs) := by
  unfold delete_song
  dsimp only
  rw [show fileChars songs = headerLineChars ++ recordsChars songs from rfl]
  rw [nextHeader_prepend]
  rw [skipSongs_oob songs i h hi, except_ok_bind]
  rw [nextSong_nil, except_ok_bind]
  simp only [List.length_nil, Nat.sub_zero, List.take_length, List.drop_length, List.append_nil]
  rfl

theorem readSongs_records (songs : List Song) (fuel : Nat) (h : goodSongs songs = true)
    (hf : songs.length < fuel) : readSongs fuel (recordsChars songs) = .ok songs := by
  induction songs generalizing fuel with
  | nil =>
    cases fuel with
    | zero => omega
    | succ f =>
      rw [show recordsChars [] = ([] : List Char) from rfl]
      rw [readSongs, nextSong_nil, except_ok_bind]
  | cons s t ih =>
    obtain ⟨hs, ht⟩ := goodSongs_cons h
    cases fuel with
    | zero => omega
    | succ f =>
      rw [show recordsChars (s :: t) = serializeChars s ++ recordsChars t from rfl]
      rw [readSongs, nextSong_record _ hs, except_ok_bind]
      simp only
      rw [ih f ht (by simp only [List.length_cons] at hf; omega), except_ok_bind]
      rfl

theorem records_length_le (songs : List Song) : songs.length ≤ (recordsChars songs).length := by
  induction songs with
  | nil => simp [recordsChars]
  | cons s t ih =>
    have : 1 ≤ (serializeChars s).length := by simp [serializeChars, extinfChars]
    simp only [recordsChars, List.length_append, List.length_cons]
    omega

theorem list_songs_file (songs : List Song) (h : goodSongs songs = true) :
    list_songs (fileChars songs) = .ok songs := by
  unfold list_songs
  rw [show fileChars songs = headerLineChars ++ recordsChars songs from rfl]
  rw [nextHeader_prepend]
  apply readSongs_records songs _ h
  have h1 := records_length_le songs
  simp [List.length_append]
  omega

theorem swap_song_mid (pre : List Song) (a b : Song) (post : List Song)
    (h : goodSongs (pre ++ a :: b :: post) = true) :
    swap_song (fileChars (pre ++ a :: b :: post)) pre.length =
      .ok (fileChars (pre ++ b :: a :: post)) := by
  obtain ⟨hpre, hrest⟩ := goodSongs_append h
  obtain ⟨ha, hrest2⟩ := goodSongs_cons hrest
  obtain ⟨hb, hpost⟩ := goodSongs_cons hrest2
  unfold swap_song
  dsimp only
  rw [show fileChars (pre ++ a :: b :: post) =
      headerLineChars ++ (recordsChars pre ++ (serializeChars a ++ (serializeChars b ++ recordsChars post))) from by
    simp [fileChars, recordsChars_append, recordsChars, List.append_assoc]]
  rw [nextHeader_prepend]
  rw [skipSongs_records pre _ hpre, except_ok_bind]
  rw [nextSong_record _ ha, except_ok_bind]
  rw [nextSong_record _ hb, except_ok_bind]
  have hstart : (headerLineChars ++ (recordsChars pre ++ (serializeChars a ++ (serializeChars b ++ recordsChars post)))).length -
      (serializeChars a ++ (serializeChars b ++ recordsChars post)).length =
      (headerLineChars ++ recordsChars pre).length := by
    simp [List.length_append]
    omega
  have hend : (headerLineChars ++ (recordsChars pre ++ (serializeChars a ++ (serializeChars b ++ recordsChars post)))).length -
      (recordsChars post).length =
      (((headerLineChars ++ recordsChars pre) ++ serializeChars a) ++ serializeChars b).length := by
    simp [List.length_append]
    omega
  rw [hstart, hend]
  rw [show headerLineChars ++ (recordsChars pre ++ (serializeChars a ++ (serializeChars b ++ recordsChars post))) =
      (headerLineChars ++ recordsChars pre) ++ (serializeChars a ++ (serializeChars b ++ recordsChars post)) from by
    simp [List.append_assoc]]
  rw [List.take_left]
  rw [show (headerLineChars ++ recordsChars pre) ++ (serializeChars a ++ (serializeChars b ++ recordsChars post)) =
      (((headerLineChars ++ recordsChars pre) ++ serializeChars a) ++ serializeChars b) ++ recordsChars post from by
    simp [List.append_assoc]]
  rw [List.drop_left]
  simp only [fileChars, recordsChars_append, recordsChars, List.append_assoc]
  rfl

theorem swap_song_last (pre : List Song) (t : Song) (h : goodSongs (pre ++ [t]) = true) :
    swap_song (fileChars (pre ++ [t])) pre.length = .ok (fileChars (pre ++ [t])) := by
  obtain ⟨hpre, hgt1⟩ := goodSongs_append h
  obtain ⟨hgt, _⟩ := goodSongs_cons hgt1
  unfold swap_song
  dsimp only
  rw [show fileChars (pre ++ [t]) =
      headerLineChars ++ (recordsChars pre ++ (serializeChars t ++ [])) from by
    simp [fileChars, recordsChars_append, recordsChars, List.append_assoc]]
  rw [nextHeader_prepend]
  rw [skipSongs_records pre _ hpre, except_ok_bind]
  rw [nextSong_record _ hgt, except_ok_bind]
  rw [nextSong_nil, except_ok_bind]
  simp only [fileChars, recordsChars_append, recordsChars, List.append_assoc]
  rfl

theorem swap_song_noop (songs : List Song) (i : Nat) (h : goodSongs songs = true)
    (hi : songs.length ≤ i + 1) :
    swap_song (fileChars songs) i = .ok (fileChars songs) := by
  rcases Nat.lt_or_ge i songs.length with hlt | hge
  · -- here i + 1 = songs.length: exactly one song remains after the skip
    have hdecomp : songs = songs.take i ++ songs.drop i := (List.take_append_drop i songs).symm
    have hdlen : (songs.drop i).length = 1 := by
      simp [List.length_drop]
      omega
    obtain ⟨t, hdt⟩ := List.length_eq_one.mp hdlen
    have hpre : (songs.take i).length = i := by
      simp [List.length_take]
      omega
    rw [hdt] at hdecomp
    have hlast := swap_song_last (songs.take i) t (hdecomp ▸ h)
    rw [hpre] at hlast
    rw [hdecomp]
    exact hlast
  · -- i ≥ songs.length: both parses yield no song
    unfold swap_song
    dsimp only
    rw [show fileChars songs = headerLineChars ++ recordsChars songs from rfl]
    rw [nextHeader_prepend]
    rw [skipSongs_oob songs i h hge, except_ok_bind]
    rw [nextSong_nil, except_ok_bind]
    rw [nextSong_nil, except_ok_bind]
    rfl

/-! ## `Song::parse_m3u` round-trip machinery -/

theorem dropWhile_eq_self_of_head {p : Char → Bool} {l : List Char}
    (h : l.head?.all (fun c => !p c) = true) : l.dropWhile p = l := by
  cases l with
  | nil => rfl
  | cons c t =>
    have hc : p c = false := by simpa [Option.all_some] using h
    simp [List.dropWhile_cons, hc]

theorem rustTrim_eq_self {l : List Char}
    (hhead : l.head?.all (fun c => !isRustWhitespace c) = true)
    (hlast : l.getLast?.all (fun c => !isRustWhitespace c) = true) :
    rustTrim l = l := by
  unfold rustTrim
  rw [dropWhile_eq_self_of_head hhead]
  rw [dropWhile_eq_self_of_head (by rw [List.head?_reverse]; exact hlast)]
  exact List.reverse_reverse l

theorem metaLine_getLast? (d : Nat) (T : List Char) :
    (extinfChars ++ (natToChars d ++ ',' :: T)).getLast? = (',' :: T).getLast? := by
  rw [List.getLast?_append_of_ne_nil _ (by simp), List.getLast?_append_cons]

theorem cons_getLast_not_ws {T : List Char}
    (h : T.getLast?.all (fun c => !isRustWhitespace c) = true) (x : Char)
    (hx : isRustWhitespace x = false) :
    (x :: T).getLast?.all (fun c => !isRustWhitespace c) = true := by
  cases hT : T with
  | nil => simp [List.getLast?, Option.all_some, hx]
  | cons y ys =>
    rw [List.getLast?_cons_cons]
    rw [hT] at h
    exact h

theorem metaLine_stripCR {d : Nat} {T : List Char}
    (hlast : T.getLast?.all (fun c => !isRustWhitespace c) = true) :
    stripCR (extinfChars ++ (natToChars d ++ ',' :: T)) =
      extinfChars ++ (natToChars d ++ ',' :: T) := by
  apply stripCR_of_getLast?_ne
  intro c hc
  rw [metaLine_getLast? d T] at hc
  have hall := cons_getLast_not_ws hlast ',' (by decide)
  rw [hc] at hall
  intro hcr
  subst hcr
  simp only [Option.all_some] at hall
  exact absurd hall (by decide)

theorem stripCR_of_last_not_ws {l : List Char}
    (h : l.getLast?.all (fun c => !isRustWhitespace c) = true) : stripCR l = l := by
  apply stripCR_of_getLast?_ne
  intro c hc
  rw [hc] at h
  intro hcr
  subst hcr
  simp only [Option.all_some] at h
  exact absurd h (by decide)

theorem linesOf_canonical (s : Song)
    (hT : ∀ c ∈ s.title.data, c ≠ '\n')
    (hTlast : s.title.data.getLast?.all (fun c => !isRustWhitespace c) = true)
    (hPn : ∀ c ∈ s.path.data, c ≠ '\n')
    (hPlast : s.path.data.getLast?.all (fun c => !isRustWhitespace c) = true) :
    linesOf (headerLineChars ++ serializeChars s) =
      [extm3uChars, extinfChars ++ (natToChars s.duration ++ ',' :: s.title.data),
        s.path.data] := by
  have h1 : headerLineChars ++ serializeChars s =
      extm3uChars ++ '\n' :: ((extinfChars ++ (natToChars s.duration ++ ',' :: s.title.data)) ++
        '\n' :: (s.path.data ++ ['\n'])) := by
    simp [headerLineChars, serializeChars, List.append_assoc]
  have hM3u : ∀ c ∈ extm3uChars, c ≠ '\n' := by intro c hc; fin_cases hc <;> decide
  have hM := metaLine_no_newline (s := s) hT
  rw [h1]
  rw [show linesOf (extm3uChars ++ '\n' :: ((extinfChars ++ (natToChars s.duration ++ ',' :: s.title.data)) ++
        '\n' :: (s.path.data ++ ['\n']))) =
      linesAux (extm3uChars ++ '\n' :: ((extinfChars ++ (natToChars s.duration ++ ',' :: s.title.data)) ++
        '\n' :: (s.path.data ++ ['\n']))) [] from rfl]
  rw [linesAux_newline _ _ hM3u]
  rw [show stripCR ([].reverse ++ extm3uChars) = extm3uChars from by decide]
  rw [if_neg (by simp : ¬((extinfChars ++ (natToChars s.duration ++ ',' :: s.title.data)) ++
        '\n' :: (s.path.data ++ ['\n'])).isEmpty = true)]
  rw [linesAux_newline _ _ hM]
  rw [show ([] : List Char).reverse ++ (extinfChars ++ (natToChars s.duration ++ ',' :: s.title.data)) =
      extinfChars ++ (natToChars s.duration ++ ',' :: s.title.data) from by simp]
  rw [metaLine_stripCR hTlast]
  rw [show s.path.data ++ ['\n'] = s.path.data ++ '\n' :: [] from rfl]
  rw [if_neg (by cases h : s.path.data <;> simp : ¬(s.path.data ++ '\n' :: []).isEmpty = true)]
  rw [linesAux_newline _ _ hPn]
  rw [show ([] : List Char).reverse ++ s.path.data = s.path.data from by simp]
  rw [stripCR_of_last_not_ws hPlast]
  rfl

theorem parseM3uGo_extm3u (rest : List (List Char)) (title : List Char) (dur : Nat)
    (acc : List Song) :
    parseM3uGo (extm3uChars :: rest) title dur acc = parseM3uGo rest title dur acc := rfl

theorem parseM3uGo_meta (rest : List (List Char)) (d : Nat) (T : List Char)
    (title0 : List Char) (dur0 : Nat) (acc : List Song)
    (hTlast : T.getLast?.all (fun c => !isRustWhitespace c) = true)
    (hd : d ≤ 2 ^ 53) :
    parseM3uGo ((extinfChars ++ (natToChars d ++ ',' :: T)) :: rest) title0 dur0 acc =
      parseM3uGo rest T d acc := by
  have hhead : (extinfChars ++ (natToChars d ++ ',' :: T)).head?.all
      (fun c => !isRustWhitespace c) = true := rfl
  have hlastM : (extinfChars ++ (natToChars d ++ ',' :: T)).getLast?.all
      (fun c => !isRustWhitespace c) = true := by
    rw [metaLine_getLast? d T]
    exact cons_getLast_not_ws hTlast ',' (by decide)
  have htrim := rustTrim_eq_self hhead hlastM
  have hne : (extinfChars ++ (natToChars d ++ ',' :: T)).isEmpty = false := rfl
  have hhash : (extinfChars ++ (natToChars d ++ ',' :: T)).head? = some '#' := rfl
  have hnm3u : startsWith extm3uChars (extinfChars ++ (natToChars d ++ ',' :: T)) = false := rfl
  have hinf := startsWith_self_append extinfChars (natToChars d ++ ',' :: T)
  have hdrop : (extinfChars ++ (natToChars d ++ ',' :: T)).drop 8 =
      natToChars d ++ ',' :: T := by
    rw [show (8 : Nat) = extinfChars.length from rfl, List.drop_left]
  have htake := takeWhile_append_stop (p := fun c => decide (c ≠ ','))
    (l := natToChars d) ',' T (fun c hc => by simp [(natToChars_tame hc).2.1]) (by simp)
  have hparse : parseF64asU64? (natToChars d) = some d := by
    rw [parseF64asU64?, parseNat?_natToChars]
    have hr : f64RoundToInt d = d := by
      rw [f64RoundToInt, if_pos hd]
    simp [hr]
    omega
  rw [parseM3uGo]
  rw [htrim, hne]
  simp only [Bool.false_eq_true, if_false]
  rw [hhash]
  simp only [if_pos rfl]
  rw [parse_m3u_extline, hnm3u]
  simp only [Bool.false_eq_true, if_false]
  rw [hinf]
  simp only [if_true]
  rw [hdrop, htake.1, hparse, htake.2]

theorem parseM3uGo_path (rest : List (List Char)) (P : List Char)
    (title : List Char) (dur : Nat) (acc : List Song)
    (hPne : P.isEmpty = false)
    (hPhead : P.head?.all (fun c => !isRustWhitespace c && c ≠ '#') = true)
    (hPlast : P.getLast?.all (fun c => !isRustWhitespace c) = true) :
    parseM3uGo (P :: rest) title dur acc =
      parseM3uGo rest [] 0 (⟨⟨title⟩, dur, ⟨P⟩⟩ :: acc) := by
  obtain ⟨c, Q, rfl⟩ : ∃ c Q, P = c :: Q := by
    cases P with
    | nil => simp at hPne
    | cons c Q => exact ⟨c, Q, rfl⟩
  have hc : isRustWhitespace c = false ∧ (c ≠ '#') := by
    have hx := hPhead
    simp only [List.head?_cons, Option.all_some, Bool.and_eq_true] at hx
    exact ⟨by simpa using hx.1, by simpa using hx.2⟩
  have htrim := rustTrim_eq_self (l := c :: Q)
    (by simp [Option.all_some, hc.1]) hPlast
  rw [parseM3uGo]
  rw [htrim]
  simp only [List.isEmpty_cons, Bool.false_eq_true, if_false]
  rw [if_neg (by simp [hc.2] : ¬(c :: Q).head? = some '#')]

theorem parseM3uGo_final (title : List Char) (dur : Nat) (s : Song) :
    parseM3uGo [] title dur [s] = .ok [s] := rfl

/-- The `parse_m3u`/`serialize` round trip on a well-behaved song. -/
theorem parse_m3u_serialize (s : Song) (hgood : goodSrcSong s = true)
    (hdur : s.duration ≤ 2 ^ 53) :
    parse_m3u ("#EXTM3U\n" ++ serialize s) = .ok [s] := by
  simp only [goodSrcSong, Bool.and_eq_true] at hgood
  obtain ⟨⟨⟨⟨⟨h1, h2⟩, h3⟩, h4⟩, h5⟩, h6⟩ := hgood
  have hT : ∀ c ∈ s.title.data, c ≠ '\n' := fun c hc => by
    simpa using List.all_eq_true.mp h1 c hc
  have hPn : ∀ c ∈ s.path.data, c ≠ '\n' := fun c hc => by
    simpa using List.all_eq_true.mp h4 c hc
  have hPne : s.path.data.isEmpty = false := by
    simpa using h3
  have hdata : ("#EXTM3U\n" ++ serialize s).data = headerLineChars ++ serializeChars s := rfl
  rw [parse_m3u, hdata]
  rw [linesOf_canonical s hT h2 hPn h6]
  rw [parseM3uGo_extm3u]
  rw [parseM3uGo_meta _ _ _ _ _ _ h2 hdur]
  rw [parseM3uGo_path _ _ _ _ _ hPne h5 h6]
  rw [show (⟨⟨s.title.data⟩, s.duration, ⟨s.path.data⟩⟩ : Song) = s from rfl]
  exact parseM3uGo_final _ _ s

/-! ## Appending to a header-less file -/

theorem serializeChars_concat (s : Song) :
    serializeChars s =
      (extinfChars ++ natToChars s.duration ++ ',' :: s.title.data ++ '\n' :: s.path.data) ++
        ['\n'] := by
  simp [serializeChars, List.append_assoc]

theorem serializeChars_getLast (s : Song) : (serializeChars s).getLast? = some '\n' := by
  rw [serializeChars_concat, List.getLast?_concat]

theorem serializeChars_ne_nil (s : Song) : serializeChars s ≠ [] := by
  rw [serializeChars_concat]
  simp

theorem recordsChars_ne_nil {songs : List Song} (h : songs ≠ []) :
    recordsChars songs ≠ [] := by
  cases songs with
  | nil => exact absurd rfl h
  | cons s t =>
    rw [show recordsChars (s :: t) = serializeChars s ++ recordsChars t from rfl]
    simp [serializeChars_ne_nil s]

theorem recordsChars_getLast {songs : List Song} (h : songs ≠ []) :
    (recordsChars songs).getLast? = some '\n' := by
  induction songs with
  | nil => exact absurd rfl h
  | cons s t ih =>
    rw [show recordsChars (s :: t) = serializeChars s ++ recordsChars t from rfl]
    cases ht : t with
    | nil => simp [recordsChars, serializeChars_getLast s]
    | cons x xs =>
      rw [List.getLast?_append_of_ne_nil _ (recordsChars_ne_nil (by simp [ht]))]
      rw [ht] at ih
      exact ih (by simp)

theorem add_to_playlist_headerless (songs : List Song) (newSong : Song) :
    add_to_playlist newSong (recordsChars songs) =
      headerLineChars ++ recordsChars songs ++ serializeChars newSong := by
  have hh : startsWith extm3uChars (recordsChars songs) = false := by
    cases songs <;> rfl
  have hlast : (headerLineChars ++ recordsChars songs).getLast? = some '\n' := by
    cases hs : songs with
    | nil => simp [recordsChars, headerLineChars]
    | cons x xs =>
      rw [List.getLast?_append_of_ne_nil _ (recordsChars_ne_nil (by simp))]
      exact recordsChars_getLast (by simp)
  unfold add_to_playlist
  rw [hh]
  simp only [Bool.false_eq_true, if_false]
  rw [if_pos hlast]

/-! ## Playlist paths -/

theorem string_data_append (a b : String) : (a ++ b).data = a.data ++ b.data := by
  cases a
  cases b
  rfl

theorem playlist_path_getLast (dir name : String) :
    (playlist_path dir name).data.getLast? = some '8' := by
  have h : (playlist_path dir name).data =
      dir.data ++ ("/".data ++ (name.data ++ ".m3u8".data)) := by
    simp [playlist_path, string_data_append]
  rw [h]
  rw [List.getLast?_append_of_ne_nil _ (by simp)]
  rw [List.getLast?_append_of_ne_nil _ (by simp)]
  rw [List.getLast?_append_of_ne_nil _ (by decide)]
  decide

theorem add_to_playlist_path_getLast (name : String) :
    (add_to_playlist_path name).data.getLast? = some 'u' := by
  have h : (add_to_playlist_path name).data =
      "playlists".data ++ ("/".data ++ (name.data ++ ".m3u".data)) := by
    simp [add_to_playlist_path, string_data_append]
  rw [h]
  rw [List.getLast?_append_of_ne_nil _ (by simp)]
  rw [List.getLast?_append_of_ne_nil _ (by simp)]
  rw [List.getLast?_append_of_ne_nil _ (by decide)]
  decide

/-! ## Claims -/

/-- Claim C1, counterexample: the round-trip law fails as universally stated.
For the song with title `"a "` (trailing space), duration 0 and path `"p"`,
parsing the header-prefixed serialization yields the song with title `"a"` —
`str::trim` in `parse_m3u` has removed the trailing space — which differs from
the original song. -/
theorem c1_roundtrip_counterexample :
    parse_m3u ("#EXTM3U\n" ++ serialize ⟨"a ", 0, "p"⟩) = .ok [⟨"a", 0, "p"⟩] ∧
      parse_m3u ("#EXTM3U\n" ++ serialize ⟨"a ", 0, "p"⟩) ≠ .ok [⟨"a ", 0, "p"⟩] := by
  constructor
  · decide
  · decide

/-- Claim C1, amended: for every Song whose title contains no newline and does
not end in whitespace, whose path is non-empty, contains no newline, neither
starts nor ends with whitespace and does not start with `'#'`, and whose
whole-second duration is at most `2 ^ 53` (so that the `f64` duration parse is
exact), parsing the header-prefixed serialization yields exactly `[s]`. -/
theorem c1_roundtrip_amended (s : Song) (hgood : goodSrcSong s = true)
    (hdur : s.duration ≤ 2 ^ 53) :
    parse_m3u ("#EXTM3U\n" ++ serialize s) = .ok [s] :=
  parse_m3u_serialize s hgood hdur

/-- Witness for the amended C1 at a concrete song. -/
theorem c1_roundtrip_amended_witness :
    goodSrcSong ⟨"Blue", 125, "/music/blue.mp3"⟩ = true ∧
      (⟨"Blue", 125, "/music/blue.mp3"⟩ : Song).duration ≤ 2 ^ 53 ∧
      parse_m3u ("#EXTM3U\n" ++ serialize ⟨"Blue", 125, "/music/blue.mp3"⟩) =
        .ok [⟨"Blue", 125, "/music/blue.mp3"⟩] :=
  ⟨by decide, by decide,
    c1_roundtrip_amended ⟨"Blue", 125, "/music/blue.mp3"⟩ (by decide) (by decide)⟩

/-- Claim C2: deleting the song at index `i < n` from a canonical playlist
file yields `Ok`, the new file content is exactly the header line followed by
the byte-identical records before index `i` and the byte-identical records
after index `i` (everything outside the deleted record's span is unchanged),
and the parsed song sequence of the new file is the original sequence with
index `i` removed. -/
theorem c2_delete_song (songs : List Song) (i : Nat) (hi : i < songs.length)
    (h : goodSongs songs = true) :
    delete_song (fileChars songs) i = .ok (fileChars (songs.eraseIdx i)) ∧
      fileChars (songs.eraseIdx i) =
        headerLineChars ++ recordsChars (songs.take i) ++ recordsChars (songs.drop (i + 1)) ∧
      list_songs (fileChars (songs.eraseIdx i)) = .ok (songs.eraseIdx i) := by
  have h1 : songs = songs.take i ++ songs[i] :: songs.drop (i + 1) := by
    conv_lhs => rw [← List.take_append_drop i songs]
    rw [List.drop_eq_getElem_cons hi]
  have hpre : (songs.take i).length = i := by
    simp [List.length_take]
    omega
  have heq := delete_song_mid (songs.take i) (songs[i]) (songs.drop (i + 1)) (h1 ▸ h)
  rw [hpre] at heq
  rw [← h1] at heq
  have herase : songs.eraseIdx i = songs.take i ++ songs.drop (i + 1) :=
    List.eraseIdx_eq_take_drop_succ songs i
  have hgerase : goodSongs (songs.take i ++ songs.drop (i + 1)) = true :=
    List.all_eq_true.mpr fun x hx => List.all_eq_true.mp h x (by
      rcases List.mem_append.mp hx with h' | h'
      · exact List.take_subset i songs h'
      · exact List.drop_subset (i + 1) songs h')
  refine ⟨?_, ?_, ?_⟩
  · rw [herase]
    exact heq
  · rw [herase]
    simp [fileChars, recordsChars_append, List.append_assoc]
  · rw [herase]
    exact list_songs_file _ hgerase

/-- Witness for C2 at a concrete two-song playlist. -/
theorem c2_delete_song_witness :
    (0 : Nat) < ([⟨"A", 1, "/a"⟩, ⟨"B", 2, "/b"⟩] : List Song).length ∧
      goodSongs [⟨"A", 1, "/a"⟩, ⟨"B", 2, "/b"⟩] = true ∧
      delete_song (fileChars [⟨"A", 1, "/a"⟩, ⟨"B", 2, "/b"⟩]) 0 =
        .ok (fileChars ([⟨"A", 1, "/a"⟩, ⟨"B", 2, "/b"⟩].eraseIdx 0)) :=
  ⟨by decide, by decide,
    (c2_delete_song [⟨"A", 1, "/a"⟩, ⟨"B", 2, "/b"⟩] 0 (by decide) (by decide)).1⟩

/-- Claim C3, counterexample: deleting index 0 from a playlist file holding
zero songs does not fail with `IndexOutOfRange`: `delete_song` returns `Ok`
and rewrites the file unchanged (the source binds the extra `next_song()?`
result to `_song`, and `next_song` returns `Ok(None)` at end of input). -/
theorem c3_delete_song_counterexample :
    delete_song (fileChars []) 0 = .ok (fileChars []) ∧
      (delete_song (fileChars []) 0).isOk = true := by
  constructor
  · decide
  · decide

/-- Claim C3, amended: when fewer than `index + 1` songs exist, `delete_song`
does not return an error at all: it succeeds and rewrites the file with its
contents unchanged. -/
theorem c3_delete_song_oob_amended (songs : List Song) (i : Nat)
    (h : goodSongs songs = true) (hi : songs.length ≤ i) :
    delete_song (fileChars songs) i = .ok (fileChars songs) ∧
      (delete_song (fileChars songs) i).isOk = true := by
  have heq := delete_song_oob songs i h hi
  refine ⟨heq, ?_⟩
  rw [heq]
  rfl

/-- Witness for the amended C3 at a concrete one-song playlist and index 5. -/
theorem c3_delete_song_oob_amended_witness :
    goodSongs [⟨"A", 1, "/a"⟩] = true ∧
      ([⟨"A", 1, "/a"⟩] : List Song).length ≤ 5 ∧
      delete_song (fileChars [⟨"A", 1, "/a"⟩]) 5 = .ok (fileChars [⟨"A", 1, "/a"⟩]) :=
  ⟨by decide, by decide,
    (c3_delete_song_oob_amended [⟨"A", 1, "/a"⟩] 5 (by decide) (by decide)).1⟩

/-- Claim C4: with at least `index + 2` songs, `swap_song` writes the two
serialized songs back in reversed order inside the enclosing span, leaving the
header and every other record byte-identical, and the parsed sequence of the
result has the two songs exchanged; with fewer songs it is a no-op returning
`Ok` with the file content unchanged. -/
theorem c4_swap_song :
    (∀ (pre : List Song) (a b : Song) (post : List Song),
      goodSongs (pre ++ a :: b :: post) = true →
        swap_song (fileChars (pre ++ a :: b :: post)) pre.length =
          .ok (fileChars (pre ++ b :: a :: post)) ∧
        list_songs (fileChars (pre ++ b :: a :: post)) = .ok (pre ++ b :: a :: post)) ∧
    (∀ (songs : List Song) (i : Nat), goodSongs songs = true → songs.length ≤ i + 1 →
      swap_song (fileChars songs) i = .ok (fileChars songs)) := by
  constructor
  · intro pre a b post h
    have hswapped : goodSongs (pre ++ b :: a :: post) = true :=
      List.all_eq_true.mpr fun x hx => List.all_eq_true.mp h x (by
        simp only [List.mem_append, List.mem_cons] at hx ⊢
        tauto)
    exact ⟨swap_song_mid pre a b post h, list_songs_file _ hswapped⟩
  · intro songs i h hi
    exact swap_song_noop songs i h hi

/-- Witness for C4 at a concrete two-song playlist: swap at index 0, and the
no-op case at index 1. -/
theorem c4_swap_song_witness :
    goodSongs (([] : List Song) ++ ⟨"A", 1, "/a"⟩ :: ⟨"B", 2, "/b"⟩ :: []) = true ∧
      swap_song (fileChars (([] : List Song) ++ ⟨"A", 1, "/a"⟩ :: ⟨"B", 2, "/b"⟩ :: []))
          ([] : List Song).length =
        .ok (fileChars (([] : List Song) ++ ⟨"B", 2, "/b"⟩ :: ⟨"A", 1, "/a"⟩ :: [])) ∧
      swap_song (fileChars [(⟨"A", 1, "/a"⟩ : Song), ⟨"B", 2, "/b"⟩]) 1 =
        .ok (fileChars [(⟨"A", 1, "/a"⟩ : Song), ⟨"B", 2, "/b"⟩]) :=
  ⟨by decide,
    (c4_swap_song.1 [] ⟨"A", 1, "/a"⟩ ⟨"B", 2, "/b"⟩ [] (by decide)).1,
    c4_swap_song.2 [⟨"A", 1, "/a"⟩, ⟨"B", 2, "/b"⟩] 1 (by decide) (by decide)⟩

/-- Claim C5: appending a song to an existing header-less file holding `N`
song records rewrites it as exactly one header line first, then the `N`
original records byte-for-byte unchanged (which already end in a newline, so
the ensured final newline adds nothing), and the new song's two-line
serialization last. -/
theorem c5_append_headerless (songs : List Song) (newSong : Song) :
    add_to_playlist newSong (recordsChars songs) =
      headerLineChars ++ recordsChars songs ++ serializeChars newSong :=
  add_to_playlist_headerless songs newSong

/-- Claim C6: evaluation of the parser at the claim's failing inputs.  On a
metadata line whose duration field (`"abc"`) does not parse as a number,
`Song::parse_m3u` hits the modelled `unwrap` panic — a process abort, not a
typed `MalformedPlaylist` error returned to the caller — and on a metadata
line with no following path line it returns `Ok` with the pending metadata
silently discarded rather than reporting an error. -/
theorem c6_parse_m3u_abort :
    parse_m3u "#EXTM3U\n#EXTINF:abc,T\n/p\n" = .error (.badDuration "abc".data) ∧
      parse_m3u "#EXTM3U\n#EXTINF:5,T\n" = .ok [] := by
  constructor
  · decide
  · decide

/-- Claim C7: `rename_playlist` fails with `EmptyPlaylistName` when the new
name is empty, with `InvalidChar` when it contains `'/'` or `'\\'`, and with
`PlaylistAlreadyExists` when something exists at the new path — leaving the
filesystem untouched in every failure case — and otherwise renames the file,
preserving its content verbatim and leaving every other path unchanged. -/
theorem c7_rename_playlist (fs : String → Option String) (dir old new : String) :
    (new = "" → rename_playlist fs dir old new = (.error .emptyPlaylistName, fs)) ∧
    (new ≠ "" → new.data.contains '/' = true →
      rename_playlist fs dir old new = (.error (.invalidChar '/'), fs)) ∧
    (new ≠ "" → new.data.contains '/' = false → new.data.contains '\\' = true →
      rename_playlist fs dir old new = (.error (.invalidChar '\\'), fs)) ∧
    (new ≠ "" → new.data.contains '/' = false → new.data.contains '\\' = false →
      (fs (playlist_path dir new)).isSome = true →
      rename_playlist fs dir old new = (.error .playlistAlreadyExists, fs)) ∧
    (∀ content, new ≠ "" → new.data.contains '/' = false → new.data.contains '\\' = false →
      fs (playlist_path dir new) = none → fs (playlist_path dir old) = some content →
      (rename_playlist fs dir old new).1 = .ok () ∧
      (rename_playlist fs dir old new).2 (playlist_path dir new) = some content ∧
      (rename_playlist fs dir old new).2 (playlist_path dir old) = none ∧
      ∀ p, p ≠ playlist_path dir new → p ≠ playlist_path dir old →
        (rename_playlist fs dir old new).2 p = fs p) := by
  refine ⟨?_, ?_, ?_, ?_, ?_⟩
  · intro h
    simp [rename_playlist, h]
  · intro h1 h2
    have h2' : '/' ∈ new.data := by simpa using h2
    simp [rename_playlist, h1, h2']
  · intro h1 h2 h3
    have h2' : '/' ∉ new.data := by simpa using h2
    have h3' : '\\' ∈ new.data := by simpa using h3
    simp [rename_playlist, h1, h2', h3']
  · intro h1 h2 h3 h4
    have h2' : '/' ∉ new.data := by simpa using h2
    have h3' : '\\' ∉ new.data := by simpa using h3
    simp [rename_playlist, h1, h2', h3', h4]
  · intro content h1 h2 h3 h4 h5
    have h2' : '/' ∉ new.data := by simpa using h2
    have h3' : '\\' ∉ new.data := by simpa using h3
    have hne : playlist_path dir old ≠ playlist_path dir new := by
      intro he
      rw [← he, h5] at h4
      exact Option.noConfusion h4
    refine ⟨?_, ?_, ?_, ?_⟩
    · simp [rename_playlist, h1, h2', h3', h4, h5]
    · simp [rename_playlist, h1, h2', h3', h4, h5]
    · simp [rename_playlist, h1, h2', h3', h4, h5, hne]
    · intro p hp1 hp2
      simp [rename_playlist, h1, h2', h3', h4, h5, hp1, hp2]

/-- Witness for C7: a concrete successful rename moving content `"X"` from
`d/a.m3u8` to `d/b.m3u8`, obtained from the success branch of the theorem. -/
theorem c7_rename_playlist_witness :
    ((fun p => if p = "d/a.m3u8" then some "X" else none) ("d/a.m3u8") = some "X") ∧
      ((rename_playlist (fun p => if p = "d/a.m3u8" then some "X" else none)
          "d" "a" "b").2 (playlist_path "d" "b") = some "X") :=
  ⟨by decide,
    ((c7_rename_playlist (fun p => if p = "d/a.m3u8" then some "X" else none)
        "d" "a" "b").2.2.2.2 "X" (by decide) (by decide) (by decide) (by decide)
        (by decide)).2.1⟩

/-- Claim C8, counterexample: with the playlists directory set to
`"playlists"` and the playlist named `"a"`, `Config::playlist_path` (used by
`create_playlist`, `delete_song`, `rename_song` and `swap_song`) addresses
`playlists/a.m3u8`, while `Song::add_to_playlist` opens `playlists/a.m3u` —
two different files, so the operations do not all share one file. -/
theorem c8_path_counterexample :
    playlist_path "playlists" "a" = "playlists/a.m3u8" ∧
      add_to_playlist_path "a" = "playlists/a.m3u" ∧
      playlist_path "playlists" "a" ≠ add_to_playlist_path "a" := by
  refine ⟨?_, ?_, ?_⟩ <;> decide

/-- Claim C8, amended: `create_playlist`, `delete_song`, `rename_song` and
`swap_song` all address `<playlists_dir>/<name>.m3u8` through
`Config::playlist_path`, but the append path `Song::add_to_playlist` opens the
hardcoded `playlists/<name>.m3u`, which is never the same path for any
playlists directory and name (the extensions alone differ). -/
theorem c8_paths_amended (dir name : String) :
    playlist_path dir name ≠ add_to_playlist_path name := by
  intro h
  have h8 := playlist_path_getLast dir name
  rw [h] at h8
  rw [add_to_playlist_path_getLast name] at h8
  exact absurd h8 (by decide)

/-- Claim C9: `add_song` rejects a source immediately (without touching the
playlist file) if and only if it is not an existing filesystem path — neither
a directory nor an existing file — and does not begin with `http://`,
`https://` or `ytdl://`; every other source proceeds to resolution. -/
theorem c9_add_song_validation (fs : FsView) (source : String) :
    add_song fs source = .rejected ↔
      (fs.pathExists source = false ∧ fs.isDir source = false ∧
        startsWith "http://".data source.data = false ∧
        startsWith "https://".data source.data = false ∧
        startsWith "ytdl://".data source.data = false) := by
  constructor
  · intro h
    rw [add_song] at h
    by_cases hb : surely_invalid_path fs source = true
    · have hb' := hb
      simp only [surely_invalid_path, Bool.and_eq_true, Bool.not_eq_true'] at hb'
      exact ⟨hb'.1.1.1.2, hb'.1.1.1.1, hb'.1.1.2, hb'.1.2, hb'.2⟩
    · rw [if_neg hb] at h
      exact absurd h (by intro hc; cases hc)
  · intro ⟨hex, hdir, h1, h2, h3⟩
    have hb : surely_invalid_path fs source = true := by
      simp [surely_invalid_path, hex, hdir, h1, h2, h3]
    rw [add_song, if_pos hb]

/-- Claim C10: on a parseable playlist with `n` songs and any index `i ≥ n`,
`delete_song` returns success and rewrites the file byte-identical to its old
content: after the header, skipping `i` songs consumes the entire remaining
text (the splice cursors coincide at the end), so the splice removes
nothing. -/
theorem c10_delete_song_oob (songs : List Song) (i : Nat)
    (h : goodSongs songs = true) (hi : songs.length ≤ i) :
    delete_song (fileChars songs) i = .ok (fileChars songs) ∧
      skipSongs i (nextHeader (fileChars songs)) = .ok [] := by
  refine ⟨delete_song_oob songs i h hi, ?_⟩
  rw [show fileChars songs = headerLineChars ++ recordsChars songs from rfl]
  rw [nextHeader_prepend]
  exact skipSongs_oob songs i h hi

/-- Witness for C10 at a concrete one-song playlist and index 1. -/
theorem c10_delete_song_oob_witness :
    goodSongs [⟨"A", 1, "/a"⟩] = true ∧
      ([⟨"A", 1, "/a"⟩] : List Song).length ≤ 1 ∧
      delete_song (fileChars [⟨"A", 1, "/a"⟩]) 1 = .ok (fileChars [⟨"A", 1, "/a"⟩]) :=
  ⟨by decide, by decide,
    (c10_delete_song_oob [⟨"A", 1, "/a"⟩] 1 (by decide) (by decide)).1⟩

end Tori
